import Mathlib

/-!
Verification of the QuizMaster scan-to-record pipeline.

Shallow embedding of the storage service (`StorageService` in
src/services/geminiService.ts, third document: `addQuiz`, `getStats`),
the response parser (`extractJson`, first document, lines 27-46), and the
image preprocessor dimension logic (`processImage` in
src/components/Scanner.tsx and src/unnamed/part_002).

Modelling conventions:
- JavaScript strings are Lean `String`s; the builtins `String.prototype.trim`
  and `String.prototype.toLowerCase` are modelled by `jsTrim` / `jsToLower`
  over the character list (ASCII case mapping, the fragment exercised here).
- JavaScript numbers (scores, marks, dimensions) are modelled as `ℚ`.
- `generateId()` (a fresh random string) is modelled by a counter `nextId`
  carried in the store; `Date.now()` / `toISOString()` become a `now : Nat`
  argument.
- IndexedDB's `put` (create-or-replace keyed by `id`) is modelled by
  `putStudent` / `putQuiz`; `getAll` snapshots are the stored lists.
- `JSON.parse` is modelled by `jsonParse`, a parser for the JSON fragment
  needed here: objects, arrays, unescaped strings, integer numbers,
  `true`/`false`/`null`.
-/

/-- Whitespace test used by `jsTrim` (models the characters
`String.prototype.trim` removes, restricted to ASCII whitespace). -/
def isJsWs (c : Char) : Bool :=
  c.toNat == 32 || c.toNat == 9 || c.toNat == 10 || c.toNat == 13 ||
  c.toNat == 11 || c.toNat == 12

/-- Trim on character lists: drop leading whitespace, then trailing. -/
def jsTrimL (l : List Char) : List Char :=
  ((l.dropWhile isJsWs).reverse.dropWhile isJsWs).reverse

/-- Models `String.prototype.trim`. -/
def jsTrim (s : String) : String :=
  String.mk (jsTrimL s.data)

/-- ASCII lower-casing of one character (models `toLowerCase` on the
ASCII fragment). -/
def jsCharLower (c : Char) : Char :=
  if 65 ≤ c.toNat ∧ c.toNat ≤ 90 then Char.ofNat (c.toNat + 32) else c

/-- Models `String.prototype.toLowerCase` (ASCII fragment). -/
def jsToLower (s : String) : String :=
  String.mk (s.data.map jsCharLower)

/-- The normalized form of a student name: trimmed then case-folded.
This is the comparison key used by `addQuiz`
(`s.name.trim().toLowerCase()`). -/
def normName (s : String) : String :=
  jsToLower (jsTrim s)

/-- A persisted student (src/types.ts `Student`); `joinedAt` is modelled
as a `Nat` timestamp. -/
structure Student where
  id : Nat
  name : String
  joinedAt : Nat
deriving Repr, DecidableEq

/-- A persisted quiz record (src/types.ts `QuizRecord`). -/
structure QuizRecord where
  id : Nat
  studentId : Nat
  studentName : String
  subject : String
  score : ℚ
  totalMarks : ℚ
  date : String
  timestamp : Nat
  imageUrl : Option String
deriving Repr, DecidableEq

/-- The caller-supplied part of a quiz record:
`Omit<QuizRecord, 'id' | 'timestamp' | 'studentId'>` in `addQuiz`. -/
structure QuizInput where
  studentName : String
  subject : String
  score : ℚ
  totalMarks : ℚ
  date : String
  imageUrl : Option String
deriving Repr, DecidableEq

/-- Derived statistics (src/types.ts `Stats`). -/
structure HighScorer where
  name : String
  score : ℚ
  subject : String
deriving Repr, DecidableEq

structure Stats where
  totalQuizzes : Nat
  averageScore : ℚ
  highestScorer : Option HighScorer
deriving Repr, DecidableEq

/-- The two IndexedDB object stores plus the id supply modelling
`generateId()`. -/
structure Store where
  students : List Student
  quizzes : List QuizRecord
  nextId : Nat
deriving Repr, DecidableEq

def emptyStore : Store := ⟨[], [], 0⟩

/-- IndexedDB `put` on the students store: create-or-replace keyed by
`id`. -/
def putStudent (l : List Student) (s : Student) : List Student :=
  if l.any (fun t => t.id == s.id) then
    l.map (fun t => if t.id == s.id then s else t)
  else l ++ [s]

/-- IndexedDB `put` on the quizzes store: create-or-replace keyed by
`id`. -/
def putQuiz (l : List QuizRecord) (q : QuizRecord) : List QuizRecord :=
  if l.any (fun t => t.id == q.id) then
    l.map (fun t => if t.id == q.id then q else t)
  else l ++ [q]

/-- The predicate of the `students.find` call in `addQuiz`:
`s.name.trim().toLowerCase() === inputName.toLowerCase()`. -/
def nameMatches (inputName : String) (s : Student) : Bool :=
  jsToLower (jsTrim s.name) == jsToLower inputName

/-- `StorageService.addQuiz`, split at its await points: the student
snapshot read by `getStudents()` is an explicit argument so that the
interleaving of two concurrent calls can be expressed. The body is the
source's: trim the input name, look it up case-insensitively in the
snapshot, create a student if absent, then persist the quiz record
stamped with the canonical student name. -/
def addQuizWith (st : Store) (snapshot : List Student) (d : QuizInput)
    (now : Nat) : Store × QuizRecord :=
  let inputName := jsTrim d.studentName
  match snapshot.find? (nameMatches inputName) with
  | some student =>
    let newQuiz : QuizRecord :=
      ⟨st.nextId, student.id, student.name, d.subject, d.score,
        d.totalMarks, d.date, now, d.imageUrl⟩
    (⟨st.students, putQuiz st.quizzes newQuiz, st.nextId + 1⟩, newQuiz)
  | none =>
    let student : Student := ⟨st.nextId, inputName, now⟩
    let newQuiz : QuizRecord :=
      ⟨st.nextId + 1, student.id, student.name, d.subject, d.score,
        d.totalMarks, d.date, now, d.imageUrl⟩
    (⟨putStudent st.students student, putQuiz st.quizzes newQuiz,
        st.nextId + 2⟩, newQuiz)

/-- `StorageService.addQuiz` as actually run sequentially: the snapshot
is the store's current student list. -/
def addQuiz (st : Store) (d : QuizInput) (now : Nat) : Store × QuizRecord :=
  addQuizWith st st.students d now

/-- A sequence of `addQuiz` calls. -/
def addMany (st : Store) : List (QuizInput × Nat) → Store
  | [] => st
  | (d, now) :: rest => addMany (addQuiz st d now).1 rest

/-- The interleaving of two concurrent `addQuiz` calls in which both
`getStudents()` reads complete before either write: both calls resolve
identity against the same initial snapshot. -/
def racyDoubleAdd (st : Store) (d1 d2 : QuizInput) (n1 n2 : Nat) : Store :=
  let snap1 := st.students
  let snap2 := st.students
  let step1 := addQuizWith st snap1 d1 n1
  let step2 := addQuizWith step1.1 snap2 d2 n2
  step2.1

/-- The tie-breaking fold of `getStats`:
`quizzes.reduce((prev, current) => currPct > prevPct ? current : prev)`. -/
def pickHighest (q0 : QuizRecord) (rest : List QuizRecord) : QuizRecord :=
  rest.foldl
    (fun prev current =>
      if current.score / current.totalMarks >
          prev.score / prev.totalMarks then current else prev)
    q0

/-- `StorageService.getStats` over a quiz list: early return on the empty
list, otherwise the percentage average and the reduce-based highest
scorer. -/
def computeStats : List QuizRecord → Stats
  | [] => ⟨0, 0, none⟩
  | q :: qs =>
    let totalQuizzes := (q :: qs).length
    let totalPercentage :=
      (q :: qs).foldl (fun acc r => acc + r.score / r.totalMarks) 0
    let averageScore := totalPercentage / (totalQuizzes : ℚ) * 100
    let highest := pickHighest q qs
    ⟨totalQuizzes, averageScore,
      some ⟨highest.studentName, highest.score, highest.subject⟩⟩

/-- `getStats` on a store. -/
def getStats (st : Store) : Stats :=
  computeStats st.quizzes

/-- Modelled from the spec: `deleteStudentCascade(studentId)` removes the
Student and every QuizRecord referencing it as one unit.
`StorageService.deleteStudent` is called from the student-detail screen
(`handleDelete` in src/unnamed/part_000) but its implementation is not
among the provided source files, so it is modelled from §4.5 of the
spec. -/
def deleteStudentCascade (st : Store) (sid : Nat) : Store :=
  ⟨st.students.filter (fun s => !(s.id == sid)),
    st.quizzes.filter (fun q => !(q.studentId == sid)),
    st.nextId⟩

/-- Dimension logic of `processImage` (src/components/Scanner.tsx lines
49-56, identically src/unnamed/part_002 lines 95-102): `MAX_WIDTH = 1600`;
only the width is compared against the maximum, and when it exceeds it
the height is scaled by the same factor. -/
def processDims (w h : ℚ) : ℚ × ℚ :=
  if w > 1600 then (1600, h * (1600 / w)) else (w, h)

/-- Store invariant: every persisted id is below the id supply, so a
freshly generated id never collides (models `generateId()` freshness). -/
def freshIds (st : Store) : Bool :=
  st.students.all (fun s => decide (s.id < st.nextId)) &&
  st.quizzes.all (fun q => decide (q.id < st.nextId))

/-- No two stored students share a normalized name. -/
def distinctNorm : List Student → Bool
  | [] => true
  | s :: rest =>
    rest.all (fun t => !(normName t.name == normName s.name)) &&
    distinctNorm rest

/-- A quiz input with the given raw student name and fixed remaining
fields, used for concrete scenarios. -/
def mkInput (name : String) : QuizInput :=
  ⟨name, "Math", 8, 10, "2024-01-01", none⟩

/-- JSON values, as produced by `JSON.parse` on the fragment modelled
here (numbers restricted to integers, strings without escapes). -/
inductive Json where
  | null : Json
  | bool : Bool → Json
  | num : Int → Json
  | str : String → Json
  | arr : List Json → Json
  | obj : List (String × Json) → Json
deriving Inhabited

/-- JSON insignificant whitespace. -/
def skipWsJ (l : List Char) : List Char :=
  l.dropWhile (fun c =>
    c.toNat == 32 || c.toNat == 9 || c.toNat == 10 || c.toNat == 13)

def isDigitCh (c : Char) : Bool :=
  48 ≤ c.toNat && c.toNat ≤ 57

def digitsToNat (ds : List Char) : Nat :=
  ds.foldl (fun a c => a * 10 + (c.toNat - 48)) 0

/-- Parse the remainder of a JSON string literal (opening quote already
consumed); no escape sequences. -/
def parseStrChars : List Char → Option (List Char × List Char)
  | [] => none
  | c :: rest =>
    if c.toNat == 34 then some ([], rest)
    else
      match parseStrChars rest with
      | some (s, r) => some (c :: s, r)
      | none => none

/-- Parse an integer JSON number (optional minus, one or more digits). -/
def parseNumber (l : List Char) : Option (Int × List Char) :=
  match l with
  | [] => none
  | c :: rest =>
    if c.toNat == 45 then
      let ds := rest.takeWhile isDigitCh
      if ds.isEmpty then none
      else some (-(digitsToNat ds : Int), rest.drop ds.length)
    else
      let ds := l.takeWhile isDigitCh
      if ds.isEmpty then none
      else some ((digitsToNat ds : Int), l.drop ds.length)

mutual

/-- Parse one JSON value; fuel bounds the recursion depth (one unit of
fuel is spent per consumed bracket or separator, so the input length
suffices). -/
def parseVal : Nat → List Char → Option (Json × List Char)
  | 0, _ => none
  | fuel + 1, l =>
    let l1 := skipWsJ l
    match l1 with
    | [] => none
    | c :: rest =>
      if c.toNat == 34 then
        match parseStrChars rest with
        | some (s, r) => some (Json.str (String.mk s), r)
        | none => none
      else if c.toNat == 123 then
        let r1 := skipWsJ rest
        match r1 with
        | d :: r2 =>
          if d.toNat == 125 then some (Json.obj [], r2)
          else
            match parseMembers fuel r1 with
            | some (ms, r3) => some (Json.obj ms, r3)
            | none => none
        | [] => none
      else if c.toNat == 91 then
        let r1 := skipWsJ rest
        match r1 with
        | d :: r2 =>
          if d.toNat == 93 then some (Json.arr [], r2)
          else
            match parseElems fuel r1 with
            | some (es, r3) => some (Json.arr es, r3)
            | none => none
        | [] => none
      else if (("true").data).isPrefixOf l1 then
        some (Json.bool true, l1.drop 4)
      else if (("false").data).isPrefixOf l1 then
        some (Json.bool false, l1.drop 5)
      else if (("null").data).isPrefixOf l1 then
        some (Json.null, l1.drop 4)
      else
        match parseNumber l1 with
        | some (n, r) => some (Json.num n, r)
        | none => none

/-- Parse one or more `"key": value` members followed by `}`. -/
def parseMembers : Nat → List Char → Option (List (String × Json) × List Char)
  | 0, _ => none
  | fuel + 1, l =>
    let l1 := skipWsJ l
    match l1 with
    | [] => none
    | c :: rest =>
      if c.toNat == 34 then
        match parseStrChars rest with
        | some (k, r1) =>
          let r2 := skipWsJ r1
          match r2 with
          | d :: r3 =>
            if d.toNat == 58 then
              match parseVal fuel r3 with
              | some (v, r4) =>
                let r5 := skipWsJ r4
                match r5 with
                | e :: r6 =>
                  if e.toNat == 44 then
                    match parseMembers fuel r6 with
                    | some (ms, r7) => some ((String.mk k, v) :: ms, r7)
                    | none => none
                  else if e.toNat == 125 then
                    some ([(String.mk k, v)], r6)
                  else none
                | [] => none
              | none => none
            else none
          | [] => none
        | none => none
      else none

/-- Parse one or more array elements followed by `]`. -/
def parseElems : Nat → List Char → Option (List Json × List Char)
  | 0, _ => none
  | fuel + 1, l =>
    match parseVal fuel l with
    | some (v, r1) =>
      let r2 := skipWsJ r1
      match r2 with
      | e :: r3 =>
        if e.toNat == 44 then
          match parseElems fuel r3 with
          | some (es, r4) => some (v :: es, r4)
          | none => none
        else if e.toNat == 93 then some ([v], r3)
        else none
      | [] => none
    | none => none

end

/-- Models `JSON.parse`: parse one value and require only whitespace to
remain; `none` models the thrown `SyntaxError`. -/
def jsonParse (s : String) : Option Json :=
  match parseVal (s.length + 1) s.data with
  | some (v, rest) => if (skipWsJ rest).isEmpty then some v else none
  | none => none

/-- Remove every (non-overlapping, left-to-right) occurrence of the
non-empty pattern `pat`; `fuel` bounds the scan (each step consumes at
least one character, so the input length suffices). -/
def removeAllGo (pat : List Char) : Nat → List Char → List Char
  | 0, l => l
  | _ + 1, [] => []
  | fuel + 1, c :: rest =>
    if pat ≠ [] ∧ pat.isPrefixOf (c :: rest) then
      removeAllGo pat fuel ((c :: rest).drop pat.length)
    else c :: removeAllGo pat fuel rest

/-- Models `String.prototype.replace(/pat/g, '')` for a literal
pattern. -/
def removeAll (pat : List Char) (l : List Char) : List Char :=
  removeAllGo pat l.length l

/-- First index of a character, `String.prototype.indexOf`. -/
def idxOf? (l : List Char) (c : Char) : Option Nat :=
  l.findIdx? (fun x => x == c)

/-- Last index of a character, `String.prototype.lastIndexOf`. -/
def lastIdxOf? (l : List Char) (c : Char) : Option Nat :=
  match idxOf? l.reverse c with
  | none => none
  | some i => some (l.length - 1 - i)

/-- `String.prototype.substring(a, b)`: swaps its arguments when
`a > b`, then takes the half-open slice. -/
def jsSubstring (l : List Char) (a b : Nat) : List Char :=
  (l.drop (min a b)).take (max a b - min a b)

def lbrace : Char := Char.ofNat 123

def rbrace : Char := Char.ofNat 125

def jsonErrorMsg : String := "AI response was not valid JSON. Please try again."

/-- `extractJson` (src/services/geminiService.ts lines 27-46): trim,
strip fenced-code markers globally, slice from the first `{` to the last
`}` when both exist, then `JSON.parse`; a parse failure becomes the
single error message of the `catch` block. The parsed value is returned
as-is. -/
def extractJson (text : String) : Except String Json :=
  let cs0 := jsTrimL text.data
  let cs1 := removeAll (("```json").data) cs0
  let cs2 := removeAll (("```").data) cs1
  let cs3 :=
    match idxOf? cs2 lbrace, lastIdxOf? cs2 rbrace with
    | some a, some b => jsSubstring cs2 a (b + 1)
    | _, _ => cs2
  match jsonParse (String.mk cs3) with
  | some v => Except.ok v
  | none => Except.error jsonErrorMsg

/-- Modelled from the spec: the validation §4.3 requires of the
ResponseParser — all four fields present, `score` and `totalMarks`
numeric. The source performs no such check; this definition exists to
state that divergence. -/
def isNumField (j : Option Json) : Bool :=
  match j with
  | some (Json.num _) => true
  | _ => false

def validExtracted (j : Json) : Bool :=
  match j with
  | Json.obj ms =>
    (ms.lookup ("studentName")).isSome &&
    isNumField (ms.lookup ("score")) &&
    isNumField (ms.lookup ("totalMarks")) &&
    (ms.lookup ("subject")).isSome
  | _ => false

/-- Fixture: student A scoring 8/10. -/
def recA : QuizRecord := ⟨10, 1, ("A"), ("Math"), 8, 10, ("2024-01-01"), 0, none⟩

/-- Fixture: student B scoring 9/10. -/
def recB : QuizRecord := ⟨11, 2, ("B"), ("Math"), 9, 10, ("2024-01-02"), 1, none⟩

/-- Fixture: a record with a non-positive `totalMarks`. -/
def recBad : QuizRecord := ⟨12, 3, ("Zed"), ("Math"), 5, -1, ("2024-01-03"), 2, none⟩

/-! ## Helper lemmas -/

lemma foldl_add_map (f : QuizRecord → ℚ) (l : List QuizRecord) (a : ℚ) :
    l.foldl (fun acc r => acc + f r) a = a + (l.map f).sum := by
  induction l generalizing a with
  | nil => simp
  | cons b t ih => simp [ih, add_assoc]

lemma sum_map_mul_const (f : QuizRecord → ℚ) (c : ℚ) (l : List QuizRecord) :
    (l.map (fun r => f r * c)).sum = (l.map f).sum * c := by
  induction l with
  | nil => simp
  | cons b t ih => simp [ih, add_mul]

/-! ## C4: totals and percentage average -/

/-- C4: `getStats` returns `totalQuizzes` equal to the number of records
and `averageScore` equal to the mean over all records of
`(score / totalMarks) * 100`; the empty list yields
`totalQuizzes = 0`, `averageScore = 0`, `highestScorer = null`; the two
records 8/10 and 9/10 average to 85. -/
theorem getStats_total_and_average :
    (∀ qs, (computeStats qs).totalQuizzes = qs.length)
    ∧ (∀ qs, (computeStats qs).averageScore =
        ((qs.map (fun q => q.score / q.totalMarks * 100)).sum) /
          (qs.length : ℚ))
    ∧ computeStats [] = ⟨0, 0, none⟩
    ∧ (computeStats [recA, recB]).averageScore = 85 := by
  refine ⟨?_, ?_, rfl, by norm_num [computeStats, recA, recB]⟩
  · intro qs
    cases qs with
    | nil => rfl
    | cons q t => rfl
  · intro qs
    cases qs with
    | nil => simp [computeStats]
    | cons q t =>
      show ((q :: t).foldl (fun acc r => acc + r.score / r.totalMarks) 0) /
          (((q :: t).length : Nat) : ℚ) * 100 = _
      rw [foldl_add_map (fun r => r.score / r.totalMarks) (q :: t) 0,
        sum_map_mul_const (fun r => r.score / r.totalMarks) 100 (q :: t),
        zero_add, div_mul_eq_mul_div]

/-! ## C7: no guard on the percentage denominator -/

/-- C7 counterexample: a record with `totalMarks = -1` is not treated as
an error condition: `getStats` performs the division (the average
becomes `5 / -1 * 100 = -500`) and even reports the record as the
highest scorer. -/
theorem getStats_unguarded_division_cex :
    (computeStats [recBad]).averageScore = -500
    ∧ recBad.totalMarks ≤ 0
    ∧ (computeStats [recBad]).highestScorer =
        some ⟨("Zed"), 5, ("Math")⟩ := by
  refine ⟨by norm_num [computeStats, recBad], by norm_num [recBad],
    by norm_num [computeStats, pickHighest, recBad]⟩

/-- C7 amended: `getStats` performs the `score / totalMarks` division
with no guard on the denominator: every single-record list, whatever the
sign of `totalMarks`, is aggregated by the division formula and its
record returned as highest scorer. -/
theorem getStats_no_denominator_guard :
    ∀ r : QuizRecord,
      (computeStats [r]).totalQuizzes = 1
      ∧ (computeStats [r]).averageScore = r.score / r.totalMarks * 100
      ∧ (computeStats [r]).highestScorer =
          some ⟨r.studentName, r.score, r.subject⟩ := by
  intro r
  refine ⟨rfl, ?_, rfl⟩
  show (0 + r.score / r.totalMarks) / ((1 : Nat) : ℚ) * 100 = _
  norm_num

/-! ## C9: cascading delete -/

/-- C9: after any sequence of `addQuiz` calls, `deleteStudentCascade`
leaves no quiz record referencing the deleted id and no student with
that id. -/
theorem deleteStudentCascade_removes_all :
    ∀ (st : Store) (inputs : List (QuizInput × Nat)) (sid : Nat),
      ((deleteStudentCascade (addMany st inputs) sid).quizzes.countP
          (fun q => q.studentId == sid) = 0)
      ∧ ((deleteStudentCascade (addMany st inputs) sid).students.countP
          (fun s => s.id == sid) = 0) := by
  intro st inputs sid
  constructor
  · rw [List.countP_eq_zero]
    intro q hq
    simp only [deleteStudentCascade, List.mem_filter] at hq
    simpa using hq.2
  · rw [List.countP_eq_zero]
    intro s hs
    simp only [deleteStudentCascade, List.mem_filter] at hs
    simpa using hs.2

/-! ## C8: image dimension capping -/

/-- C8 counterexample: an image of width 1000 and height 2000 is left at
its original size, so the output height exceeds 1600 and no rescaling
happens even though the height is over the maximum. -/
theorem processDims_tall_image_unchanged :
    processDims 1000 2000 = (1000, 2000) ∧ (1600 : ℚ) < 2000 := by
  constructor
  · norm_num [processDims]
  · norm_num

/-- C8 amended: only the width is capped: the output width never exceeds
1600 and aspect ratio is preserved (cross-multiplied form), but any image
with width at most 1600 keeps its original size, its height even when it
exceeds 1600. -/
theorem processDims_caps_width_only :
    ∀ w h : ℚ,
      (processDims w h).1 ≤ 1600
      ∧ (processDims w h).2 * w = h * (processDims w h).1
      ∧ (w ≤ 1600 → processDims w h = (w, h)) := by
  intro w h
  by_cases hw : w > 1600
  · have hw0 : w ≠ 0 := ne_of_gt (lt_trans (by norm_num) hw)
    refine ⟨by simp [processDims, hw], ?_,
      fun hle => absurd hw (not_lt.mpr hle)⟩
    simp only [processDims, if_pos hw]
    field_simp
  · refine ⟨?_, by simp [processDims, hw], fun _ => by simp [processDims, hw]⟩
    simp only [processDims, if_neg hw]
    exact le_of_not_lt hw

/-- C8 witness: the amended theorem applied at the concrete 1000 by 2000
image. -/
theorem processDims_caps_width_only_witness :
    processDims 1000 2000 = (1000, 2000) :=
  (processDims_caps_width_only 1000 2000).2.2 (by norm_num)

/-! ## C2: the duplicate-student race -/

/-- C2: evaluating the racy interleaving (both `getStudents()` reads
complete before either write) of two `addQuiz` calls for the same new
normalized name on an empty store: two Students are created, both
normalizing to "asha", violating the single-Student requirement. -/
theorem addQuiz_race_creates_duplicates :
    (racyDoubleAdd emptyStore (mkInput ("Asha")) (mkInput ("ASHA")) 0 1).students.map
        (fun s => normName s.name) = [("asha"), ("asha")]
    ∧ (racyDoubleAdd emptyStore (mkInput ("Asha")) (mkInput ("ASHA")) 0 1).students.length = 2
    ∧ distinctNorm
        (racyDoubleAdd emptyStore (mkInput ("Asha")) (mkInput ("ASHA")) 0 1).students = false := by
  exact ⟨by decide, by decide, by decide⟩

/-! ## C3: the parser does not validate fields -/

/-- C3 counterexample: the empty JSON object parses structurally and is
returned as-is even though every required field is missing; no
validation error is raised. -/
theorem extractJson_missing_fields_accepted :
    extractJson ("\x7b\x7d") = Except.ok (Json.obj [])
    ∧ validExtracted (Json.obj []) = false :=
  ⟨rfl, rfl⟩

/-- C3 amended: `extractJson` performs structural parsing only and
returns whatever JSON value it finds, unvalidated: a non-numeric score
is returned as-is, a complete result is returned as-is, and the only
failure is the single malformed-JSON error for structurally unparsable
text. -/
theorem extractJson_returns_unvalidated :
    extractJson ("\x7b\"score\": \"high\"\x7d") =
      Except.ok (Json.obj [(("score"), Json.str ("high"))])
    ∧ validExtracted (Json.obj [(("score"), Json.str ("high"))]) = false
    ∧ extractJson ("```json\n\x7b\"studentName\": \"Asha\", \"score\": 8, \"totalMarks\": 10, \"subject\": \"Math\"\x7d\n```") =
      Except.ok (Json.obj
        [(("studentName"), Json.str ("Asha")), (("score"), Json.num 8),
          (("totalMarks"), Json.num 10), (("subject"), Json.str ("Math"))])
    ∧ validExtracted (Json.obj
        [(("studentName"), Json.str ("Asha")), (("score"), Json.num 8),
          (("totalMarks"), Json.num 10), (("subject"), Json.str ("Math"))]) = true
    ∧ extractJson ("no braces here") = Except.error jsonErrorMsg :=
  ⟨rfl, rfl, rfl, rfl, rfl⟩

/-! ## C5: highest scorer is the first maximal record -/

lemma pickHighest_cons (q b : QuizRecord) (t : List QuizRecord) :
    pickHighest q (b :: t) =
      pickHighest
        (if b.score / b.totalMarks > q.score / q.totalMarks then b else q)
        t := rfl

lemma pickHighest_ge :
    ∀ (t : List QuizRecord) (q r : QuizRecord), r ∈ q :: t →
      r.score / r.totalMarks ≤
        (pickHighest q t).score / (pickHighest q t).totalMarks := by
  intro t
  induction t with
  | nil =>
    intro q r hr
    rcases List.mem_cons.mp hr with rfl | hr2
    · exact le_refl _
    · exact absurd hr2 (List.not_mem_nil r)
  | cons b t ih =>
    intro q r hr
    rw [pickHighest_cons]
    by_cases hb : b.score / b.totalMarks > q.score / q.totalMarks
    · rw [if_pos hb]
      rcases List.mem_cons.mp hr with rfl | hr2
      · exact le_trans (le_of_lt hb) (ih b b (List.mem_cons_self b t))
      · exact ih b r hr2
    · rw [if_neg hb]
      rcases List.mem_cons.mp hr with h1 | hr2
      · rw [h1]
        exact ih q q (List.mem_cons_self q t)
      · rcases List.mem_cons.mp hr2 with h2 | hr3
        · rw [h2]
          exact le_trans (le_of_not_lt hb) (ih q q (List.mem_cons_self q t))
        · exact ih q r (List.mem_cons_of_mem q hr3)

lemma pickHighest_first :
    ∀ (t : List QuizRecord) (q : QuizRecord),
      ∃ l1 l2, q :: t = l1 ++ (pickHighest q t) :: l2
        ∧ ∀ r ∈ l1, r.score / r.totalMarks <
            (pickHighest q t).score / (pickHighest q t).totalMarks := by
  intro t
  induction t with
  | nil =>
    intro q
    exact ⟨[], [], rfl, by simp⟩
  | cons b t ih =>
    intro q
    rw [pickHighest_cons]
    by_cases hb : b.score / b.totalMarks > q.score / q.totalMarks
    · rw [if_pos hb]
      obtain ⟨l1, l2, hdec, hlt⟩ := ih b
      refine ⟨q :: l1, l2, by rw [List.cons_append, ← hdec], ?_⟩
      intro r hr
      rcases List.mem_cons.mp hr with rfl | hr2
      · exact lt_of_lt_of_le hb (pickHighest_ge t b b (List.mem_cons_self b t))
      · exact hlt r hr2
    · rw [if_neg hb]
      obtain ⟨l1, l2, hdec, hlt⟩ := ih q
      cases l1 with
      | nil =>
        have hq : q = pickHighest q t := by
          simpa using congrArg (fun l => l.head?) hdec
        refine ⟨[], b :: t, ?_, by simp⟩
        rw [List.nil_append, ← hq]
      | cons x m =>
        have hx : q = x := by
          simpa using congrArg (fun l => l.head?) hdec
        have ht : t = m ++ pickHighest q t :: l2 := by
          have := congrArg (fun l => l.tail) hdec
          simpa using this
        refine ⟨q :: b :: m, l2, ?_, ?_⟩
        · conv_lhs => rw [ht]
          simp
        · intro r hr
          have hqlt : q.score / q.totalMarks <
              (pickHighest q t).score / (pickHighest q t).totalMarks := by
            have := hlt x (List.mem_cons_self x m)
            rwa [← hx] at this
          rcases List.mem_cons.mp hr with rfl | hr2
          · exact hqlt
          · rcases List.mem_cons.mp hr2 with rfl | hr3
            · exact lt_of_le_of_lt (le_of_not_lt hb) hqlt
            · have := hlt r (List.mem_cons_of_mem x hr3)
              exact this

/-- C5: on a non-empty record list, `getStats` reports as highest scorer
a record achieving the maximum `score / totalMarks` ratio, and it is the
first such record in iteration order: every record strictly before it
has a strictly smaller ratio. -/
theorem getStats_highest_is_first_max :
    ∀ (q : QuizRecord) (qs : List QuizRecord),
      ∃ h l1 l2,
        (computeStats (q :: qs)).highestScorer =
          some ⟨h.studentName, h.score, h.subject⟩
        ∧ q :: qs = l1 ++ h :: l2
        ∧ (∀ r ∈ q :: qs,
            r.score / r.totalMarks ≤ h.score / h.totalMarks)
        ∧ (∀ r ∈ l1, r.score / r.totalMarks < h.score / h.totalMarks) := by
  intro q qs
  obtain ⟨l1, l2, hdec, hlt⟩ := pickHighest_first qs q
  exact ⟨pickHighest q qs, l1, l2, rfl, hdec,
    fun r hr => pickHighest_ge qs q r hr, hlt⟩

/-! ## C6: records are stamped with the canonical student name -/

lemma putStudent_self_mem (l : List Student) (s : Student) :
    s ∈ putStudent l s := by
  unfold putStudent
  by_cases h : l.any (fun t => t.id == s.id)
  · rw [if_pos h]
    obtain ⟨a, ha, haid⟩ := List.any_eq_true.mp h
    refine List.mem_map.mpr ⟨a, ha, ?_⟩
    rw [if_pos haid]
  · rw [if_neg h]
    simp

/-- C6: the persisted record's `studentName` equals the stored canonical
name of the student it is attached to (a student present in the
post-state with the record's `studentId`); and when no existing student
matched, that name is the trimmed (not case-folded) raw input. -/
theorem addQuiz_stamps_canonical_name :
    ∀ (st : Store) (d : QuizInput) (now : Nat),
      (∃ s, s ∈ (addQuiz st d now).1.students
        ∧ s.id = (addQuiz st d now).2.studentId
        ∧ (addQuiz st d now).2.studentName = s.name)
      ∧ (st.students.find? (nameMatches (jsTrim d.studentName)) = none →
          (addQuiz st d now).2.studentName = jsTrim d.studentName) := by
  intro st d now
  cases hf : st.students.find? (nameMatches (jsTrim d.studentName)) with
  | some student =>
    constructor
    · refine ⟨student, ?_, ?_, ?_⟩
      · simp only [addQuiz, addQuizWith, hf]
        exact List.mem_of_find?_eq_some hf
      · simp only [addQuiz, addQuizWith, hf]
      · simp only [addQuiz, addQuizWith, hf]
    · intro h
      exact Option.noConfusion h
  | none =>
    constructor
    · refine ⟨⟨st.nextId, jsTrim d.studentName, now⟩, ?_, ?_, ?_⟩
      · simp only [addQuiz, addQuizWith, hf]
        exact putStudent_self_mem st.students ⟨st.nextId, jsTrim d.studentName, now⟩
      · simp only [addQuiz, addQuizWith, hf]
      · simp only [addQuiz, addQuizWith, hf]
    · intro _
      simp only [addQuiz, addQuizWith, hf]

/-- C6 witness: adding a quiz for the fresh raw name " Bo " on the empty
store persists the record under the trimmed canonical name "Bo". -/
theorem addQuiz_stamps_canonical_name_witness :
    ((addQuiz emptyStore (mkInput (" Bo ")) 0).2).studentName = ("Bo") := by
  rw [(addQuiz_stamps_canonical_name emptyStore (mkInput (" Bo ")) 0).2
    (by decide)]
  decide

/-! ## Trim idempotence -/

lemma dropWhile_idem (p : Char → Bool) (l : List Char) :
    (l.dropWhile p).dropWhile p = l.dropWhile p := by
  induction l with
  | nil => rfl
  | cons a t ih =>
    by_cases h : p a
    · simp [List.dropWhile_cons, h, ih]
    · simp [List.dropWhile_cons, h]

lemma dropWhile_head_false (p : Char → Bool) :
    ∀ (l : List Char) (a : Char) (t : List Char),
      l.dropWhile p = a :: t → p a = false := by
  intro l
  induction l with
  | nil =>
    intro a t h
    exact absurd h (by simp)
  | cons b m ih =>
    intro a t h
    by_cases hb : p b
    · rw [List.dropWhile_cons, if_pos hb] at h
      exact ih a t h
    · rw [List.dropWhile_cons, if_neg hb] at h
      injection h with h1 h2
      simp only [Bool.not_eq_true] at hb
      rw [← h1]
      exact hb

lemma exists_dropWhile_append (p : Char → Bool) :
    ∀ l : List Char, ∃ m, l = m ++ l.dropWhile p := by
  intro l
  induction l with
  | nil => exact ⟨[], rfl⟩
  | cons a t ih =>
    by_cases h : p a
    · obtain ⟨m, hm⟩ := ih
      refine ⟨a :: m, ?_⟩
      rw [List.dropWhile_cons, if_pos h, List.cons_append, ← hm]
    · exact ⟨[], by rw [List.dropWhile_cons, if_neg h, List.nil_append]⟩

lemma dropWhile_of_head_false (p : Char → Bool) (a : Char) (t : List Char)
    (h : p a = false) : (a :: t).dropWhile p = a :: t := by
  simp [List.dropWhile_cons, h]

lemma jsTrimL_idem (l : List Char) : jsTrimL (jsTrimL l) = jsTrimL l := by
  have h1 : (jsTrimL l).dropWhile isJsWs = jsTrimL l := by
    cases hBr : jsTrimL l with
    | nil => rfl
    | cons a t =>
      obtain ⟨m, hm⟩ :=
        exists_dropWhile_append isJsWs (l.dropWhile isJsWs).reverse
      have hA : l.dropWhile isJsWs = jsTrimL l ++ m.reverse := by
        have h2 := congrArg List.reverse hm
        simpa [List.reverse_append, jsTrimL] using h2
      have hA2 : l.dropWhile isJsWs = a :: (t ++ m.reverse) := by
        rw [hA, hBr, List.cons_append]
      have ha : isJsWs a = false :=
        dropWhile_head_false isJsWs l a (t ++ m.reverse) hA2
      exact dropWhile_of_head_false isJsWs a t ha
  show ((((jsTrimL l).dropWhile isJsWs).reverse).dropWhile isJsWs).reverse
      = jsTrimL l
  rw [h1]
  have h2 : (jsTrimL l).reverse =
      (l.dropWhile isJsWs).reverse.dropWhile isJsWs :=
    List.reverse_reverse _
  rw [h2, dropWhile_idem]
  rfl

lemma jsTrim_trim (s : String) : jsTrim (jsTrim s) = jsTrim s := by
  show String.mk (jsTrimL (jsTrimL s.data)) = String.mk (jsTrimL s.data)
  rw [jsTrimL_idem]

lemma normName_jsTrim (raw : String) :
    normName (jsTrim raw) = normName raw := by
  unfold normName
  rw [jsTrim_trim]

lemma nameMatches_eq (raw : String) (s : Student) :
    nameMatches (jsTrim raw) s = (normName s.name == normName raw) := rfl

/-! ## Store invariants -/

lemma freshIds_iff (st : Store) :
    freshIds st = true ↔
      (∀ s ∈ st.students, s.id < st.nextId)
      ∧ (∀ q ∈ st.quizzes, q.id < st.nextId) := by
  simp [freshIds, List.all_eq_true]

lemma putStudent_append (l : List Student) (s : Student)
    (h : ∀ t ∈ l, t.id ≠ s.id) : putStudent l s = l ++ [s] := by
  have hfalse : ¬(l.any (fun t => t.id == s.id) = true) := by
    intro hany
    obtain ⟨a, ha, haid⟩ := List.any_eq_true.mp hany
    exact h a ha (by simpa using haid)
  simp only [putStudent, if_neg hfalse]

lemma putQuiz_append (l : List QuizRecord) (q : QuizRecord)
    (h : ∀ t ∈ l, t.id ≠ q.id) : putQuiz l q = l ++ [q] := by
  have hfalse : ¬(l.any (fun t => t.id == q.id) = true) := by
    intro hany
    obtain ⟨a, ha, haid⟩ := List.any_eq_true.mp hany
    exact h a ha (by simpa using haid)
  simp only [putQuiz, if_neg hfalse]

/-- Canonical form of one `addQuiz` call on a store with fresh ids:
either an existing student matched and only the quiz list grows, or a
new student and the quiz are appended. -/
lemma addQuiz_cases (st : Store) (d : QuizInput) (now : Nat)
    (hfr : freshIds st = true) :
    (∃ student,
      st.students.find? (nameMatches (jsTrim d.studentName)) = some student
      ∧ addQuiz st d now =
        (⟨st.students,
          st.quizzes ++ [⟨st.nextId, student.id, student.name, d.subject,
            d.score, d.totalMarks, d.date, now, d.imageUrl⟩],
          st.nextId + 1⟩,
         ⟨st.nextId, student.id, student.name, d.subject, d.score,
            d.totalMarks, d.date, now, d.imageUrl⟩))
    ∨ (st.students.find? (nameMatches (jsTrim d.studentName)) = none
      ∧ addQuiz st d now =
        (⟨st.students ++ [⟨st.nextId, jsTrim d.studentName, now⟩],
          st.quizzes ++ [⟨st.nextId + 1, st.nextId, jsTrim d.studentName,
            d.subject, d.score, d.totalMarks, d.date, now, d.imageUrl⟩],
          st.nextId + 2⟩,
         ⟨st.nextId + 1, st.nextId, jsTrim d.studentName, d.subject,
            d.score, d.totalMarks, d.date, now, d.imageUrl⟩)) := by
  obtain ⟨hs, hq⟩ := (freshIds_iff st).mp hfr
  cases hfind : st.students.find? (nameMatches (jsTrim d.studentName)) with
  | some student =>
    left
    refine ⟨student, rfl, ?_⟩
    simp only [addQuiz, addQuizWith, hfind]
    rw [putQuiz_append]
    intro t ht
    exact Nat.ne_of_lt (hq t ht)
  | none =>
    right
    refine ⟨rfl, ?_⟩
    simp only [addQuiz, addQuizWith, hfind]
    rw [putStudent_append, putQuiz_append]
    · intro t ht
      exact Nat.ne_of_lt (lt_trans (hq t ht) (Nat.lt_succ_self _))
    · intro t ht
      exact Nat.ne_of_lt (hs t ht)

lemma addQuiz_fresh (st : Store) (d : QuizInput) (now : Nat)
    (hfr : freshIds st = true) :
    freshIds (addQuiz st d now).1 = true := by
  obtain ⟨hs, hq⟩ := (freshIds_iff st).mp hfr
  rcases addQuiz_cases st d now hfr with ⟨student, _, hst⟩ | ⟨_, hst⟩
  · rw [hst, freshIds_iff]
    constructor
    · intro s hsm
      exact Nat.lt_succ_of_lt (hs s hsm)
    · intro q hqm
      simp only [List.mem_append, List.mem_singleton] at hqm
      rcases hqm with hqm | rfl
      · exact Nat.lt_succ_of_lt (hq q hqm)
      · exact Nat.lt_succ_self _
  · rw [hst, freshIds_iff]
    constructor
    · intro s hsm
      simp only [List.mem_append, List.mem_singleton] at hsm
      rcases hsm with hsm | rfl
      · have h3 := hs s hsm
        show s.id < st.nextId + 2
        omega
      · show st.nextId < st.nextId + 2
        omega
    · intro q hqm
      simp only [List.mem_append, List.mem_singleton] at hqm
      rcases hqm with hqm | rfl
      · have h3 := hq q hqm
        show q.id < st.nextId + 2
        omega
      · show st.nextId + 1 < st.nextId + 2
        omega

lemma distinctNorm_iff (l : List Student) :
    distinctNorm l = true ↔
      l.Pairwise (fun a b => normName b.name ≠ normName a.name) := by
  induction l with
  | nil => simp [distinctNorm]
  | cons a m ih =>
    simp [distinctNorm, List.all_eq_true, ih, List.pairwise_cons]

lemma addQuiz_distinct (st : Store) (d : QuizInput) (now : Nat)
    (hfr : freshIds st = true) (hdn : distinctNorm st.students = true) :
    distinctNorm (addQuiz st d now).1.students = true := by
  rcases addQuiz_cases st d now hfr with ⟨student, _, hst⟩ | ⟨hfind, hst⟩
  · rw [hst]
    exact hdn
  · rw [hst]
    rw [distinctNorm_iff] at hdn ⊢
    rw [List.pairwise_append]
    refine ⟨hdn, by simp, ?_⟩
    intro a ha b hb
    simp only [List.mem_singleton] at hb
    subst hb
    have hne := List.find?_eq_none.mp hfind a ha
    rw [nameMatches_eq] at hne
    simp only [beq_iff_eq] at hne
    show normName (jsTrim d.studentName) ≠ normName a.name
    rw [normName_jsTrim]
    exact fun h => hne h.symm

lemma addMany_preserves_inv :
    ∀ (inputs : List (QuizInput × Nat)) (st : Store),
      freshIds st = true → distinctNorm st.students = true →
        freshIds (addMany st inputs) = true
        ∧ distinctNorm (addMany st inputs).students = true := by
  intro inputs
  induction inputs with
  | nil =>
    intro st h1 h2
    exact ⟨h1, h2⟩
  | cons p rest ih =>
    intro st h1 h2
    obtain ⟨d, n⟩ := p
    exact ih (addQuiz st d n).1 (addQuiz_fresh st d n h1)
      (addQuiz_distinct st d n h1 h2)

/-! ## C1: normalized-name uniqueness -/

/-- C1: from any fresh-id store in which no two students share a
normalized name, every sequence of `addQuiz` calls preserves that
uniqueness; a call whose raw name normalizes to an existing student's
name creates no student; and the concrete chain "Asha", " asha ", "ASHA"
from the empty store leaves exactly the one student "Asha", created on
the first call. -/
theorem addQuiz_unique_normalized_names :
    (∀ (st : Store) (inputs : List (QuizInput × Nat)),
      freshIds st = true → distinctNorm st.students = true →
        distinctNorm (addMany st inputs).students = true)
    ∧ (∀ (st : Store) (d : QuizInput) (now : Nat),
        (∃ s, s ∈ st.students ∧ nameMatches (jsTrim d.studentName) s = true) →
          (addQuiz st d now).1.students = st.students)
    ∧ ((addMany emptyStore
          [(mkInput ("Asha"), 0), (mkInput (" asha "), 1),
            (mkInput ("ASHA"), 2)]).students.map (fun s => s.name)
        = [("Asha")])
    ∧ ((addQuiz emptyStore (mkInput ("Asha")) 0).1.students.map
          (fun s => s.name) = [("Asha")]) := by
  refine ⟨?_, ?_, by decide, by decide⟩
  · intro st inputs h1 h2
    exact (addMany_preserves_inv inputs st h1 h2).2
  · intro st d now hex
    obtain ⟨s, hs, hmatch⟩ := hex
    cases hfind : st.students.find? (nameMatches (jsTrim d.studentName)) with
    | some student =>
      simp only [addQuiz, addQuizWith, hfind]
    | none =>
      exact absurd hmatch (List.find?_eq_none.mp hfind s hs)

/-- C1 witness: the preservation part applied to the concrete Asha chain
from the empty store, and the no-creation part applied to a store already
holding "Asha" when "ASHA" arrives. -/
theorem addQuiz_unique_normalized_names_witness :
    distinctNorm (addMany emptyStore
        [(mkInput ("Asha"), 0), (mkInput (" asha "), 1),
          (mkInput ("ASHA"), 2)]).students = true
    ∧ (addQuiz ((addQuiz emptyStore (mkInput ("Asha")) 0).1)
        (mkInput ("ASHA")) 5).1.students =
      ((addQuiz emptyStore (mkInput ("Asha")) 0).1).students :=
  ⟨addQuiz_unique_normalized_names.1 emptyStore _ (by decide) (by decide),
    addQuiz_unique_normalized_names.2.1 _ _ 5
      ⟨⟨0, ("Asha"), 0⟩, by decide, by decide⟩⟩

/-! ## C10: whitespace-only student names -/

/-- C10: on a fresh-id store holding no student with an empty normalized
name, an `addQuiz` whose raw name trims to the empty string succeeds and
creates one student whose stored name is the empty string; a second
whitespace-only call resolves to that same student (same `studentId`,
no further student created), and both saved records carry the empty
string as `studentName`. -/
theorem addQuiz_whitespace_only_name :
    ∀ (st : Store) (d1 d2 : QuizInput) (n1 n2 : Nat),
      freshIds st = true →
      jsTrim d1.studentName = ("") →
      jsTrim d2.studentName = ("") →
      (∀ s ∈ st.students, normName s.name ≠ ("")) →
        (addQuiz st d1 n1).2.studentName = ("")
        ∧ (addQuiz (addQuiz st d1 n1).1 d2 n2).2.studentName = ("")
        ∧ (addQuiz (addQuiz st d1 n1).1 d2 n2).2.studentId
            = (addQuiz st d1 n1).2.studentId
        ∧ (addQuiz st d1 n1).1.students.length = st.students.length + 1
        ∧ (addQuiz (addQuiz st d1 n1).1 d2 n2).1.students
            = (addQuiz st d1 n1).1.students := by
  intro st d1 d2 n1 n2 hfr h1 h2 hnames
  have hfr1 : freshIds (addQuiz st d1 n1).1 = true := addQuiz_fresh st d1 n1 hfr
  have hf1 : st.students.find? (nameMatches (jsTrim d1.studentName)) = none := by
    rw [List.find?_eq_none]
    intro s hs
    rw [nameMatches_eq]
    have hn1 : normName d1.studentName = ("") := by
      show jsToLower (jsTrim d1.studentName) = ("")
      rw [h1]
      rfl
    rw [hn1]
    simp only [beq_iff_eq]
    exact hnames s hs
  rcases addQuiz_cases st d1 n1 hfr with ⟨stud, hfind, _⟩ | ⟨_, hst1⟩
  · rw [hf1] at hfind
    exact Option.noConfusion hfind
  have hr1name : (addQuiz st d1 n1).2.studentName = ("") := by
    rw [hst1]
    exact h1
  have hr1id : (addQuiz st d1 n1).2.studentId = st.nextId := by
    rw [hst1]
  have hlen : (addQuiz st d1 n1).1.students.length = st.students.length + 1 := by
    rw [hst1]
    simp
  have hf2 : (addQuiz st d1 n1).1.students.find?
      (nameMatches (jsTrim d2.studentName)) =
      some ⟨st.nextId, jsTrim d1.studentName, n1⟩ := by
    have hA : st.students.find? (nameMatches (jsTrim d2.studentName)) = none := by
      rw [List.find?_eq_none]
      intro s hs
      rw [nameMatches_eq]
      have hn2 : normName d2.studentName = ("") := by
        show jsToLower (jsTrim d2.studentName) = ("")
        rw [h2]
        rfl
      rw [hn2]
      simp only [beq_iff_eq]
      exact hnames s hs
    have hp : nameMatches (jsTrim d2.studentName)
        ⟨st.nextId, jsTrim d1.studentName, n1⟩ = true := by
      show (jsToLower (jsTrim (jsTrim d1.studentName)) ==
        jsToLower (jsTrim d2.studentName)) = true
      rw [jsTrim_trim, h1, h2]
      rfl
    simp only [hst1, List.find?_append, hA, Option.none_or]
    exact List.find?_cons_of_pos _ hp
  rcases addQuiz_cases (addQuiz st d1 n1).1 d2 n2 hfr1 with
    ⟨stud2, hfind2, hst2⟩ | ⟨hfind2, _⟩
  · have hstud2 : stud2 = ⟨st.nextId, jsTrim d1.studentName, n1⟩ := by
      have h3 := hfind2.symm.trans hf2
      exact Option.some.inj h3
    subst hstud2
    refine ⟨hr1name, ?_, ?_, hlen, ?_⟩
    · rw [hst2]
      exact h1
    · rw [hst2, hr1id]
    · rw [hst2]
  · rw [hf2] at hfind2
    exact Option.noConfusion hfind2

/-- C10 witness: two whitespace-only raw names ("   " then "") on the
empty store share one student with the empty stored name. -/
theorem addQuiz_whitespace_only_name_witness :
    (addQuiz emptyStore (mkInput ("   ")) 0).2.studentName = ("")
    ∧ (addQuiz (addQuiz emptyStore (mkInput ("   ")) 0).1
        (mkInput ("")) 1).2.studentName = ("")
    ∧ (addQuiz (addQuiz emptyStore (mkInput ("   ")) 0).1
        (mkInput ("")) 1).2.studentId
        = (addQuiz emptyStore (mkInput ("   ")) 0).2.studentId
    ∧ (addQuiz emptyStore (mkInput ("   ")) 0).1.students.length
        = emptyStore.students.length + 1
    ∧ (addQuiz (addQuiz emptyStore (mkInput ("   ")) 0).1
        (mkInput ("")) 1).1.students
        = (addQuiz emptyStore (mkInput ("   ")) 0).1.students :=
  addQuiz_whitespace_only_name emptyStore (mkInput ("   ")) (mkInput (""))
    0 1 (by decide) (by decide) (by decide)
    (by intro s hs; exact absurd hs (List.not_mem_nil s))
